import Mathlib

/-!
A verification development for a single-file monthly allowance tracker.

The tracker keeps a single ledger document (current month key, monthly
allowance, categories, transactions, archives of closed months, savings
goals), rolls the ledger over when the calendar month changes, and derives
metrics from the transaction list.  The definitions below are a shallow
embedding of the core of `app.py`: decimal amounts are modelled as rational
numbers, Python dicts keyed by month strings as association lists, and the
ambient calendar (today's date, `datetime.now().timestamp()`) as explicit
parameters.
-/

/-- A transaction record, mirroring the dict
`{"date", "category", "income_or_expenditure", "payment_mode", "amount"}`
built in `render_dashboard`.  The `income_or_expenditure` field is a plain
string because externally supplied data (an uploaded CSV) can carry values
other than `"Income"`/`"Expenditure"`. -/
structure Transaction where
  date : String
  category : String
  income_or_expenditure : String
  payment_mode : String
  amount : ℚ
deriving DecidableEq, Repr

/-- A snapshot of a closed month, as stored in `data["archives"]`:
`{"monthly_allowance": ..., "transactions": ...}`. -/
structure Archived where
  monthly_allowance : ℚ
  transactions : List Transaction
deriving DecidableEq, Repr

/-- A savings goal, mirroring the dict built in `render_savings`. -/
structure Goal where
  id : String
  name : String
  target_amount : ℚ
  target_date : String
  created_date : String
deriving DecidableEq, Repr

/-- The whole persisted ledger document (the top-level JSON object).
Python's `archives` dict is modelled as an association list preserving
insertion order, which is exactly the behaviour of a Python `dict`. -/
structure Doc where
  current_month : String
  monthly_allowance : ℚ
  categories : List String
  transactions : List Transaction
  archives : List (String × Archived)
  savings_goals : List Goal
deriving DecidableEq, Repr

/-- Association-list lookup, the reading counterpart of `archives[key]`. -/
def lookupArch : List (String × Archived) → String → Option Archived
  | [], _ => none
  | (k, v) :: rest, key => if k == key then some v else lookupArch rest key

/-- Python dict assignment `archives[k] = v`: if the key is present its
value is replaced in place (insertion order kept), otherwise the pair is
appended at the end. -/
def setKey (l : List (String × Archived)) (k : String) (v : Archived) :
    List (String × Archived) :=
  if l.any (fun kv => kv.1 == k) then
    l.map (fun kv => if kv.1 == k then (k, v) else kv)
  else
    l ++ [(k, v)]

/-- `rollover_month_if_needed` (app.py lines 99-128), with the caller's
current calendar month key (`get_current_month_key()`) passed explicitly.
When the stored month differs from today's, the old month is archived
under its own key — but only if the transaction list is non-empty or the
allowance is nonzero — and a fresh month starts with the same categories
and allowance. -/
def rollover_month_if_needed (todayMonth : String) (data : Doc) : Doc :=
  if data.current_month ≠ todayMonth then
    let archives' :=
      if data.transactions ≠ [] ∨ data.monthly_allowance ≠ 0 then
        setKey data.archives data.current_month
          ⟨data.monthly_allowance, data.transactions⟩
      else
        data.archives
    { data with
      current_month := todayMonth
      transactions := []
      archives := archives' }
  else
    data

/-- The result record of `compute_basic_metrics`. -/
structure Metrics where
  total_income : ℚ
  total_expense : ℚ
  net_available : ℚ
  remaining_budget : ℚ
deriving DecidableEq, Repr

/-- `compute_basic_metrics` (app.py lines 247-267): sums of the amounts of
transactions whose kind is exactly `"Income"` resp. `"Expenditure"`, the
net of allowance plus income minus expenses, and the net clamped at zero. -/
def compute_basic_metrics (txs : List Transaction) (monthly_allowance : ℚ) :
    Metrics :=
  let total_income :=
    if txs.isEmpty then 0
    else ((txs.filter (fun t => t.income_or_expenditure == "Income")).map
      (fun t => t.amount)).sum
  let total_expense :=
    if txs.isEmpty then 0
    else ((txs.filter (fun t => t.income_or_expenditure == "Expenditure")).map
      (fun t => t.amount)).sum
  let net_available := monthly_allowance + total_income - total_expense
  { total_income := total_income
    total_expense := total_expense
    net_available := net_available
    remaining_budget := max net_available 0 }

/-- The result record of `compute_insight_metrics`. -/
structure Insight where
  avg_daily_spent : ℚ
  remaining_days : ℤ
  safe_daily_spend : ℚ
deriving DecidableEq, Repr

/-- `compute_insight_metrics` (app.py lines 276-298), with the calendar
context (`days_in_month` from `calendar.monthrange`, `days_passed` from
`today.day`) passed explicitly. -/
def compute_insight_metrics (metrics : Metrics)
    (days_in_month days_passed : Nat) : Insight :=
  let remaining_days : ℤ := max ((days_in_month : ℤ) - (days_passed : ℤ)) 0
  let avg_daily_spent : ℚ :=
    if 0 < days_passed then metrics.total_expense / (days_passed : ℚ) else 0
  let safe_daily_spend : ℚ :=
    if 0 < remaining_days then metrics.remaining_budget / (remaining_days : ℚ)
    else 0
  { avg_daily_spent := avg_daily_spent
    remaining_days := remaining_days
    safe_daily_spend := safe_daily_spend }

/-- Category removal (app.py lines 414-417): only the `categories` field is
reassigned, to the list comprehension
`[c for c in data["categories"] if c not in cats_to_delete]`. -/
def remove_categories (data : Doc) (cats_to_delete : List String) : Doc :=
  { data with
    categories := data.categories.filter (fun c => !(cats_to_delete.contains c)) }

/-- `transactions_match` (app.py lines 511-519): structural equality on
date, category, kind and payment mode, the amounts compared with an
epsilon of `0.01`. -/
def transactions_match (tx1 tx2 : Transaction) : Bool :=
  tx1.date == tx2.date
    && tx1.category == tx2.category
    && tx1.income_or_expenditure == tx2.income_or_expenditure
    && tx1.payment_mode == tx2.payment_mode
    && decide (|tx1.amount - tx2.amount| < 1 / 100)

/-- The deletion step of `render_dashboard` (app.py lines 521-527): keep
the transactions that match no selected one, and report as deleted count
the difference of the list lengths. -/
def delete_transactions (txs selected : List Transaction) :
    List Transaction × Nat :=
  let remaining :=
    txs.filter (fun tx => !(selected.any (fun s => transactions_match tx s)))
  (remaining, txs.length - remaining.length)

/-- The characters of the decimal numeral of `n`, most significant digit
first: a fuel-free counterpart of `Nat.toDigitsCore` at base 10, used to
reason about `Nat.repr` (which `str(...)` in the source compiles to). -/
def decChars (n : Nat) : List Char :=
  if _h : n < 10 then [Nat.digitChar n]
  else decChars (n / 10) ++ [Nat.digitChar (n % 10)]
decreasing_by exact Nat.div_lt_self (by omega) (by omega)

/-- Numeric value of a digit string, used to invert `decChars`. -/
def decVal (l : List Char) : Nat :=
  l.foldl (fun a c => 10 * a + (c.toNat - 48)) 0

/-- Zero padding on the left to a minimum width, the behaviour of Python's
`"%0Nd"` format specifiers in `get_current_month_key`. -/
def padZeros (width : Nat) (s : String) : String :=
  (List.replicate (width - s.length) '0').asString ++ s

/-- `get_current_month_key` (app.py lines 37-40): today's year and month
formatted as `f"{today.year:04d}-{today.month:02d}"`, with the date
supplied explicitly. -/
def get_current_month_key (year month : Nat) : String :=
  padZeros 4 (Nat.repr year) ++ "-" ++ padZeros 2 (Nat.repr month)

/-- Whether a string has the `YYYY-MM` shape: exactly seven characters,
four digits, a dash, two digits. -/
def validMonthKey (s : String) : Bool :=
  match s.data with
  | [y1, y2, y3, y4, d, m1, m2] =>
    y1.isDigit && y2.isDigit && y3.isDigit && y4.isDigit && (d == '-')
      && m1.isDigit && m2.isDigit
  | _ => false

/-- The nine-entry starter category list of the first-run default document
(app.py lines 53-63). -/
def starterCategories : List String :=
  ["Food", "Transport", "Rent / Hostel", "Groceries", "Entertainment",
   "Academic", "Health", "Savings", "Miscellaneous"]

/-- A raw parsed JSON document: every field may be absent, mirroring
`data.setdefault(...)` backfilling in `load_data`. -/
structure RawDoc where
  current_month : Option String
  monthly_allowance : Option ℚ
  categories : Option (List String)
  transactions : Option (List Transaction)
  archives : Option (List (String × Archived))
  savings_goals : Option (List Goal)

/-- The three outcomes of reading the persisted JSON file: no file at all,
a file that fails to parse (`json.JSONDecodeError` / `OSError`), or a
parsed document. -/
inductive PersistedState where
  | missing
  | corrupt
  | parsed (raw : RawDoc)

/-- `load_data` (app.py lines 43-90), with the read outcome and today's
month key as explicit inputs.  A missing file yields the first-run default
with the starter categories; a corrupt file yields the minimal fallback
with an empty category list; a parsed file has each missing field
backfilled with its default. -/
def load_data (todayMonth : String) : PersistedState → Doc
  | .missing =>
    { current_month := todayMonth
      monthly_allowance := 0
      categories := starterCategories
      transactions := []
      archives := []
      savings_goals := [] }
  | .corrupt =>
    { current_month := todayMonth
      monthly_allowance := 0
      categories := []
      transactions := []
      archives := []
      savings_goals := [] }
  | .parsed raw =>
    { current_month := raw.current_month.getD todayMonth
      monthly_allowance := raw.monthly_allowance.getD 0
      categories := raw.categories.getD []
      transactions := raw.transactions.getD []
      archives := raw.archives.getD []
      savings_goals := raw.savings_goals.getD [] }

/-- Python's `str.strip()`: remove leading and trailing whitespace.  The
source calls `.strip()` on category and goal names. -/
def pyStrip (s : String) : String :=
  ⟨((s.data.dropWhile (fun c => c.isWhitespace)).reverse.dropWhile
      (fun c => c.isWhitespace)).reverse⟩

/-- The savings-goal id generated in `render_savings` (app.py line 812):
`str(len(savings_goals) + 1) + "-" + str(int(datetime.now().timestamp()))`,
taking the current goal count and the whole-second timestamp as inputs. -/
def goalId (count ts : Nat) : String :=
  Nat.repr (count + 1) ++ "-" ++ Nat.repr ts

/-- The mutating operations the presentation layer performs on the
document.  Ambient inputs (today's month key for a rollover, the clock
second for a goal creation) are carried by the operation itself. -/
inductive Op where
  | rollover (todayMonth : String)
  | setAllowance (amount : ℚ)
  | addTransaction (tx : Transaction)
  | deleteTxs (selected : List Transaction)
  | addCategory (name : String)
  | removeCats (names : List String)
  | createGoal (name : String) (target : ℚ) (targetDate : Option String)
      (createdDate : String) (ts : Nat)
  | deleteGoal (gid : String)

/-- One interaction step.  Each branch mirrors the corresponding handler
in app.py: the rollover engine (lines 99-128), saving the allowance
(line 324), the add-transaction form with its amount/category guards
(lines 373-387), deletion by structural match (lines 509-530), category
management (lines 396-417), and the savings-goal handlers
(lines 802-824 and 889-891). -/
def applyOp (d : Doc) : Op → Doc
  | .rollover todayMonth => rollover_month_if_needed todayMonth d
  | .setAllowance a => { d with monthly_allowance := a }
  | .addTransaction tx =>
    if tx.category ∈ d.categories ∧ 0 < tx.amount then
      { d with transactions := d.transactions ++ [tx] }
    else d
  | .deleteTxs selected =>
    { d with transactions := (delete_transactions d.transactions selected).1 }
  | .addCategory name =>
    let cleaned := pyStrip name
    if cleaned = "" ∨ cleaned ∈ d.categories then d
    else { d with categories := d.categories ++ [cleaned] }
  | .removeCats names => remove_categories d names
  | .createGoal name target targetDate createdDate ts =>
    match targetDate with
    | none => d
    | some td =>
      if pyStrip name = "" ∨ target ≤ 0 then d
      else
        { d with savings_goals := d.savings_goals ++
            [{ id := goalId d.savings_goals.length ts
               name := pyStrip name
               target_amount := target
               target_date := td
               created_date := createdDate }] }
  | .deleteGoal gid =>
    { d with savings_goals := d.savings_goals.filter (fun g => g.id != gid) }

/-- Run a sequence of interaction steps. -/
def runOps (d : Doc) : List Op → Doc
  | [] => d
  | op :: rest => runOps (applyOp d op) rest

/-- The ids freshly generated by one step: non-empty only for a goal
creation that passes the input guards. -/
def newGoalIds (d : Doc) : Op → List String
  | .createGoal name target targetDate _ ts =>
    match targetDate with
    | none => []
    | some _ =>
      if pyStrip name = "" ∨ target ≤ 0 then []
      else [goalId d.savings_goals.length ts]
  | _ => []

/-- All goal ids generated along a run, in order of generation. -/
def genIds (d : Doc) : List Op → List String
  | [] => []
  | op :: rest => newGoalIds d op ++ genIds (applyOp d op) rest

/-- `tsLowerBound b ops` holds when every goal creation in `ops` carries a
timestamp at least `b`, and timestamps of consecutive creations strictly
increase (the clock never reads the same second twice). -/
def tsLowerBound (b : Nat) : List Op → Bool
  | [] => true
  | op :: rest =>
    match op with
    | .createGoal _ _ _ _ ts => decide (b ≤ ts) && tsLowerBound (ts + 1) rest
    | _ => tsLowerBound b rest

/-- Lexicographic strict order on character lists, comparing code points;
on `YYYY-MM` month keys this is chronological order. -/
def charsLt : List Char → List Char → Bool
  | [], [] => false
  | [], _ :: _ => true
  | _ :: _, [] => false
  | a :: as, b :: bs =>
    if a.toNat < b.toNat then true
    else if b.toNat < a.toNat then false
    else charsLt as bs

/-- Strict order on month-key strings. -/
def keyLt (a b : String) : Bool := charsLt a.data b.data

/-- Non-strict order on month-key strings. -/
def keyLe (a b : String) : Bool := a == b || keyLt a b

/-- `monoRollovers d ops` holds when every rollover in `ops` carries a
calendar month key at least the document's current month key at that
point: the caller's clock never moves backwards across a month
boundary. -/
def monoRollovers (d : Doc) : List Op → Bool
  | [] => true
  | op :: rest =>
    match op with
    | .rollover todayMonth =>
      keyLe d.current_month todayMonth && monoRollovers (applyOp d op) rest
    | _ => monoRollovers (applyOp d op) rest

/-- A first-run document opened in January 2025. -/
def exampleStart : Doc := load_data "2025-01" PersistedState.missing

/-- A sample expenditure in a starter category. -/
def exampleTx : Transaction :=
  { date := "2025-01-15"
    category := "Food"
    income_or_expenditure := "Expenditure"
    payment_mode := "Cash"
    amount := 5 }

/-- A document whose clock moves to February, then back to January: the
user sets an allowance, a rollover closes January, and a second rollover
with the calendar reading January again closes February and reopens
January. -/
def backAndForthOps : List Op :=
  [Op.setAllowance 100, Op.rollover "2025-02", Op.rollover "2025-01"]

/-- `backAndForthOps` followed by a new January transaction and a third
rollover to February, which rewrites the January archive entry. -/
def backAndForthOps2 : List Op :=
  backAndForthOps ++ [Op.addTransaction exampleTx, Op.rollover "2025-02"]

/-- A document that already has one archived month and is open in
February 2025. -/
def exampleArchDoc : Doc :=
  { current_month := "2025-02"
    monthly_allowance := 0
    categories := []
    transactions := []
    archives := [("2025-01", { monthly_allowance := 50, transactions := [] })]
    savings_goals := [] }

/-- Create a goal, delete it, and create another goal within the same
clock second (timestamp 50). -/
def goalOpsReuse : List Op :=
  [Op.createGoal "a" 1 (some "2026-01-01") "2025-01-01" 50,
   Op.deleteGoal "1-50",
   Op.createGoal "b" 1 (some "2026-01-01") "2025-01-01" 50]

/-- Create two goals, delete the first, and create a third, all within the
same clock second (timestamp 50). -/
def goalOpsCollide : List Op :=
  [Op.createGoal "a" 1 (some "2026-01-01") "2025-01-01" 50,
   Op.createGoal "b" 1 (some "2026-01-01") "2025-01-01" 50,
   Op.deleteGoal "1-50",
   Op.createGoal "c" 1 (some "2026-01-01") "2025-01-01" 50]

/-- Create a goal, delete it, and create another goal one second later. -/
def goalOpsFresh : List Op :=
  [Op.createGoal "a" 1 (some "2026-01-01") "2025-01-01" 50,
   Op.deleteGoal "1-50",
   Op.createGoal "b" 1 (some "2026-01-01") "2025-01-01" 51]

/-- Closed-form characterisation of `compute_basic_metrics`: the branch on
`txs.isEmpty` collapses, each total is a sum of indicator terms over the
whole list, and the derived fields follow their formulas. -/
theorem compute_basic_metrics_eq (txs : List Transaction) (a : ℚ) :
    compute_basic_metrics txs a =
      { total_income :=
          (txs.map (fun t =>
            if t.income_or_expenditure = "Income" then t.amount else 0)).sum
        total_expense :=
          (txs.map (fun t =>
            if t.income_or_expenditure = "Expenditure" then t.amount else 0)).sum
        net_available := a +
          (txs.map (fun t =>
            if t.income_or_expenditure = "Income" then t.amount else 0)).sum -
          (txs.map (fun t =>
            if t.income_or_expenditure = "Expenditure" then t.amount else 0)).sum
        remaining_budget := max (a +
          (txs.map (fun t =>
            if t.income_or_expenditure = "Income" then t.amount else 0)).sum -
          (txs.map (fun t =>
            if t.income_or_expenditure = "Expenditure" then t.amount else 0)).sum)
          0 } := by
  have hsum : ∀ (kind : String),
      ((txs.filter (fun t => t.income_or_expenditure == kind)).map
        (fun t => t.amount)).sum =
      (txs.map (fun t =>
        if t.income_or_expenditure = kind then t.amount else 0)).sum := by
    intro kind
    induction txs with
    | nil => simp
    | cons t rest ih =>
      by_cases h : t.income_or_expenditure = kind
      · simp [List.filter_cons, h, ih]
      · simp [List.filter_cons, h, ih]
  cases txs with
  | nil => simp [compute_basic_metrics]
  | cons t rest =>
    simp only [compute_basic_metrics, List.isEmpty_cons, if_neg]
    rw [hsum "Income", hsum "Expenditure"]
    simp

theorem digitChar_isDigit : ∀ d : Nat, d < 10 → (Nat.digitChar d).isDigit = true := by
  decide

theorem digitChar_toNat : ∀ d : Nat, d < 10 → (Nat.digitChar d).toNat - 48 = d := by
  decide

theorem isDigit_ne_dash (c : Char) (h : c.isDigit = true) : c ≠ '-' := by
  intro he
  subst he
  simp [Char.isDigit] at h

/-- `Nat.toDigitsCore` at base 10 with sufficient fuel computes `decChars`. -/
theorem toDigitsCore_eq_decChars :
    ∀ (fuel n : Nat) (ds : List Char), n < fuel →
      Nat.toDigitsCore 10 fuel n ds = decChars n ++ ds := by
  intro fuel
  induction fuel with
  | zero => intro n ds h; omega
  | succ f ih =>
    intro n ds h
    by_cases h10 : n / 10 = 0
    · have hn : n < 10 := by omega
      rw [Nat.toDigitsCore]
      simp only [h10, if_pos]
      rw [decChars]
      simp [hn, Nat.mod_eq_of_lt hn]
    · rw [Nat.toDigitsCore]
      simp only [h10, if_neg]
      have hrec : n / 10 < f := by
        have : n / 10 < n := Nat.div_lt_self (by omega) (by omega)
        omega
      rw [ih (n / 10) (Nat.digitChar (n % 10) :: ds) hrec]
      conv_rhs => rw [decChars]
      simp [show ¬ n < 10 by omega]

/-- `Nat.repr` is exactly the `decChars` digit string. -/
theorem repr_data_eq_decChars (n : Nat) : (Nat.repr n).data = decChars n := by
  show (Nat.toDigits 10 n).asString.data = decChars n
  rw [Nat.toDigits, toDigitsCore_eq_decChars (n + 1) n [] (by omega)]
  simp [List.asString]

theorem decChars_isDigit (n : Nat) : ∀ c ∈ decChars n, c.isDigit = true := by
  induction n using Nat.strong_induction_on with
  | _ n ih =>
    rw [decChars]
    by_cases h : n < 10
    · simp only [dif_pos h]
      intro c hc
      rw [List.mem_singleton] at hc
      subst hc
      exact digitChar_isDigit n h
    · simp only [dif_neg h]
      intro c hc
      rcases List.mem_append.mp hc with h1 | h2
      · exact ih (n / 10) (Nat.div_lt_self (by omega) (by omega)) c h1
      · rw [List.mem_singleton] at h2
        subst h2
        exact digitChar_isDigit (n % 10) (Nat.mod_lt _ (by omega))

theorem decVal_decChars (n : Nat) : decVal (decChars n) = n := by
  induction n using Nat.strong_induction_on with
  | _ n ih =>
    rw [decChars]
    by_cases h : n < 10
    · simp only [dif_pos h]
      show 10 * 0 + ((Nat.digitChar n).toNat - 48) = n
      rw [digitChar_toNat n h]
      omega
    · simp only [dif_neg h]
      show (decChars (n / 10) ++ [Nat.digitChar (n % 10)]).foldl
        (fun a c => 10 * a + (c.toNat - 48)) 0 = n
      rw [List.foldl_append]
      have hdiv := ih (n / 10) (Nat.div_lt_self (by omega) (by omega))
      show 10 * decVal (decChars (n / 10)) + ((Nat.digitChar (n % 10)).toNat - 48) = n
      rw [hdiv, digitChar_toNat (n % 10) (Nat.mod_lt _ (by omega))]
      omega

theorem repr_injective (m n : Nat) (h : Nat.repr m = Nat.repr n) : m = n := by
  have hd : decChars m = decChars n := by
    rw [← repr_data_eq_decChars, ← repr_data_eq_decChars, h]
  calc m = decVal (decChars m) := (decVal_decChars m).symm
    _ = decVal (decChars n) := by rw [hd]
    _ = n := decVal_decChars n

theorem repr_data_isDigit (n : Nat) : ∀ c ∈ (Nat.repr n).data, c.isDigit = true := by
  rw [repr_data_eq_decChars]
  exact decChars_isDigit n

/-- Strings with equal character data are equal. -/
theorem stringDataInj (s t : String) (h : s.data = t.data) : s = t := by
  cases s
  cases t
  exact congrArg String.mk h

/-- Splitting a character list around a dash separator when neither prefix
contains a dash. -/
theorem append_dash_inj :
    ∀ (l1 l2 r1 r2 : List Char), '-' ∉ l1 → '-' ∉ l2 →
      l1 ++ '-' :: r1 = l2 ++ '-' :: r2 → l1 = l2 ∧ r1 = r2 := by
  intro l1
  induction l1 with
  | nil =>
    intro l2 r1 r2 _ h2 h
    cases l2 with
    | nil => simpa using h
    | cons b t2 =>
      simp only [List.nil_append, List.cons_append, List.cons.injEq] at h
      exact absurd (by rw [h.1]; exact List.mem_cons_self b t2) h2
  | cons a t1 ih =>
    intro l2 r1 r2 h1 h2 h
    cases l2 with
    | nil =>
      simp only [List.nil_append, List.cons_append, List.cons.injEq] at h
      exact absurd (by rw [← h.1]; exact List.mem_cons_self a t1) h1
    | cons b t2 =>
      simp only [List.cons_append, List.cons.injEq] at h
      have ht := ih t2 r1 r2 (fun hm => h1 (List.mem_cons_of_mem a hm))
        (fun hm => h2 (List.mem_cons_of_mem b hm)) h.2
      exact ⟨by rw [h.1, ht.1], ht.2⟩

/-- Two generated goal ids agree only if they were generated at the same
clock second (and with the same goal count). -/
theorem goalId_inj (n1 t1 n2 t2 : Nat) (h : goalId n1 t1 = goalId n2 t2) :
    n1 = n2 ∧ t1 = t2 := by
  have hdata := congrArg String.data h
  simp only [goalId, String.data_append] at hdata
  have hsplit : (Nat.repr (n1 + 1)).data ++ '-' :: (Nat.repr t1).data =
      (Nat.repr (n2 + 1)).data ++ '-' :: (Nat.repr t2).data := by
    simpa using hdata
  have hnd1 : '-' ∉ (Nat.repr (n1 + 1)).data := fun hm =>
    isDigit_ne_dash '-' (repr_data_isDigit (n1 + 1) '-' hm) rfl
  have hnd2 : '-' ∉ (Nat.repr (n2 + 1)).data := fun hm =>
    isDigit_ne_dash '-' (repr_data_isDigit (n2 + 1) '-' hm) rfl
  have hsp := append_dash_inj _ _ _ _ hnd1 hnd2 hsplit
  constructor
  · have hr := repr_injective (n1 + 1) (n2 + 1) (stringDataInj _ _ hsp.1)
    omega
  · exact repr_injective t1 t2 (stringDataInj _ _ hsp.2)

theorem charsLt_irrefl : ∀ l : List Char, charsLt l l = false := by
  intro l
  induction l with
  | nil => rfl
  | cons a as ih => simp [charsLt, ih]

theorem charsLt_trans :
    ∀ l1 l2 l3 : List Char, charsLt l1 l2 = true → charsLt l2 l3 = true →
      charsLt l1 l3 = true := by
  intro l1
  induction l1 with
  | nil =>
    intro l2 l3 h12 h23
    cases l2 with
    | nil => simp [charsLt] at h12
    | cons b bs =>
      cases l3 with
      | nil => simp [charsLt] at h23
      | cons c cs => rfl
  | cons a as ih =>
    intro l2 l3 h12 h23
    cases l2 with
    | nil => simp [charsLt] at h12
    | cons b bs =>
      cases l3 with
      | nil => simp [charsLt] at h23
      | cons c cs =>
        simp only [charsLt] at h12 h23 ⊢
        split_ifs at h12 h23 ⊢ with hab hba hbc hcb hac hca <;>
          first
          | rfl
          | omega
          | exact ih bs cs h12 h23

theorem keyLt_irrefl (a : String) : keyLt a a = false := charsLt_irrefl a.data

theorem keyLt_trans (a b c : String) (h1 : keyLt a b = true)
    (h2 : keyLt b c = true) : keyLt a c = true :=
  charsLt_trans a.data b.data c.data h1 h2

theorem keyLe_ne_lt (a b : String) (hle : keyLe a b = true) (hne : a ≠ b) :
    keyLt a b = true := by
  rcases Bool.or_eq_true_iff.mp hle with h | h
  · exact absurd (by simpa using h) hne
  · exact h

theorem keyLt_ne (a b : String) (h : keyLt a b = true) : a ≠ b := by
  intro he
  subst he
  rw [keyLt_irrefl] at h
  exact Bool.false_ne_true h

theorem lookupArch_append (l l2 : List (String × Archived)) (k : String)
    (v : Archived) (h : lookupArch l k = some v) :
    lookupArch (l ++ l2) k = some v := by
  induction l with
  | nil => simp [lookupArch] at h
  | cons kv rest ih =>
    obtain ⟨k1, v1⟩ := kv
    simp only [lookupArch, List.cons_append] at h ⊢
    by_cases he : k1 == k
    · simpa [he] using h
    · simp only [he] at h ⊢
      simp only [Bool.false_eq_true, if_false] at h ⊢
      exact ih h

theorem setKey_fresh (l : List (String × Archived)) (k : String) (v : Archived)
    (h : ∀ kv ∈ l, kv.1 ≠ k) : setKey l k v = l ++ [(k, v)] := by
  unfold setKey
  have hany : l.any (fun kv => kv.1 == k) = false := by
    rw [List.any_eq_false]
    intro kv hkv
    simpa using h kv hkv
  rw [hany]
  simp

/-- Induction step for archive preservation under an operation that leaves
the archives and the current month key untouched. -/
theorem arch_aux_step (rest : List Op) (d : Doc) (op : Op)
    (he : (applyOp d op).archives = d.archives)
    (hc : (applyOp d op).current_month = d.current_month)
    (hinv : ∀ kv ∈ d.archives, keyLt kv.1 d.current_month = true)
    (hmono : monoRollovers (applyOp d op) rest = true)
    (ih : ∀ d2 : Doc,
      (∀ kv ∈ d2.archives, keyLt kv.1 d2.current_month = true) →
      monoRollovers d2 rest = true →
      (∀ kv ∈ (runOps d2 rest).archives,
        keyLt kv.1 (runOps d2 rest).current_month = true)
      ∧ (∀ k v, lookupArch d2.archives k = some v →
          lookupArch (runOps d2 rest).archives k = some v)) :
    (∀ kv ∈ (runOps (applyOp d op) rest).archives,
      keyLt kv.1 (runOps (applyOp d op) rest).current_month = true)
    ∧ (∀ k v, lookupArch d.archives k = some v →
        lookupArch (runOps (applyOp d op) rest).archives k = some v) := by
  obtain ⟨c1, c2⟩ := ih (applyOp d op) (by rw [he, hc]; exact hinv) hmono
  exact ⟨c1, fun k v h => c2 k v (by rw [he]; exact h)⟩

/-- Along any run whose rollovers never move the calendar backwards, if
every archive key precedes the open month key then this stays true, and
existing archive entries are never changed. -/
theorem runOps_arch_aux :
    ∀ (ops : List Op) (d : Doc),
      (∀ kv ∈ d.archives, keyLt kv.1 d.current_month = true) →
      monoRollovers d ops = true →
      (∀ kv ∈ (runOps d ops).archives,
        keyLt kv.1 (runOps d ops).current_month = true)
      ∧ (∀ k v, lookupArch d.archives k = some v →
          lookupArch (runOps d ops).archives k = some v) := by
  intro ops
  induction ops with
  | nil => exact fun d hinv _ => ⟨hinv, fun k v h => h⟩
  | cons op rest ih =>
    intro d hinv hmono
    cases op with
    | rollover today =>
      simp only [monoRollovers, Bool.and_eq_true] at hmono
      obtain ⟨hle, hmono2⟩ := hmono
      simp only [runOps]
      by_cases heq : d.current_month = today
      · have hid : applyOp d (Op.rollover today) = d := by
          simp [applyOp, rollover_month_if_needed, heq]
        rw [hid] at hmono2 ⊢
        exact ih d hinv hmono2
      · have hlt : keyLt d.current_month today = true := keyLe_ne_lt _ _ hle heq
        have hfresh : ∀ kv ∈ d.archives, kv.1 ≠ d.current_month :=
          fun kv hkv => keyLt_ne _ _ (hinv kv hkv)
        by_cases hmean : d.transactions ≠ [] ∨ d.monthly_allowance ≠ 0
        · have hroll : applyOp d (Op.rollover today) =
              { d with
                current_month := today
                transactions := []
                archives := d.archives ++
                  [(d.current_month, ⟨d.monthly_allowance, d.transactions⟩)] } := by
            show rollover_month_if_needed today d = _
            rw [rollover_month_if_needed, if_pos heq, if_pos hmean,
              setKey_fresh d.archives d.current_month _ hfresh]
          have hinv2 : ∀ kv ∈ (applyOp d (Op.rollover today)).archives,
              keyLt kv.1 (applyOp d (Op.rollover today)).current_month = true := by
            rw [hroll]
            intro kv hkv
            rcases List.mem_append.mp hkv with h1 | h2
            · exact keyLt_trans _ _ _ (hinv kv h1) hlt
            · rw [List.mem_singleton] at h2
              rw [h2]
              exact hlt
          obtain ⟨c1, c2⟩ := ih (applyOp d (Op.rollover today)) hinv2 hmono2
          refine ⟨c1, fun k v h => c2 k v ?_⟩
          rw [hroll]
          exact lookupArch_append _ _ _ _ h
        · have hroll : applyOp d (Op.rollover today) =
              { d with
                current_month := today
                transactions := []
                archives := d.archives } := by
            show rollover_month_if_needed today d = _
            rw [rollover_month_if_needed, if_pos heq, if_neg hmean]
          have hinv2 : ∀ kv ∈ (applyOp d (Op.rollover today)).archives,
              keyLt kv.1 (applyOp d (Op.rollover today)).current_month = true := by
            rw [hroll]
            intro kv hkv
            exact keyLt_trans _ _ _ (hinv kv hkv) hlt
          obtain ⟨c1, c2⟩ := ih (applyOp d (Op.rollover today)) hinv2 hmono2
          refine ⟨c1, fun k v h => c2 k v ?_⟩
          rw [hroll]
          exact h
    | setAllowance a =>
      simp only [monoRollovers] at hmono
      simp only [runOps]
      exact arch_aux_step rest d _ rfl rfl hinv hmono ih
    | addTransaction tx =>
      simp only [monoRollovers] at hmono
      simp only [runOps]
      exact arch_aux_step rest d _ (by simp only [applyOp]; split <;> rfl)
        (by simp only [applyOp]; split <;> rfl) hinv hmono ih
    | deleteTxs selected =>
      simp only [monoRollovers] at hmono
      simp only [runOps]
      exact arch_aux_step rest d _ rfl rfl hinv hmono ih
    | addCategory name =>
      simp only [monoRollovers] at hmono
      simp only [runOps]
      exact arch_aux_step rest d _ (by simp only [applyOp]; split <;> rfl)
        (by simp only [applyOp]; split <;> rfl) hinv hmono ih
    | removeCats names =>
      simp only [monoRollovers] at hmono
      simp only [runOps]
      exact arch_aux_step rest d _ rfl rfl hinv hmono ih
    | createGoal name target targetDate createdDate ts =>
      simp only [monoRollovers] at hmono
      simp only [runOps]
      refine arch_aux_step rest d _ ?_ ?_ hinv hmono ih <;>
        (simp only [applyOp]; split) <;> first | rfl | (split <;> rfl)
    | deleteGoal gid =>
      simp only [monoRollovers] at hmono
      simp only [runOps]
      exact arch_aux_step rest d _ rfl rfl hinv hmono ih

/-- Induction step for goal-id freshness under an operation that leaves
the savings-goal list untouched. -/
theorem goal_aux_step (rest : List Op) (d : Doc) (op : Op) (b : Nat)
    (hg : (applyOp d op).savings_goals = d.savings_goals)
    (hinv : ∀ g ∈ d.savings_goals, ∃ n t, t < b ∧ g.id = goalId n t)
    (hnd : (d.savings_goals.map (fun g => g.id)).Nodup)
    (hts : tsLowerBound b rest = true)
    (ih : ∀ (d2 : Doc) (b2 : Nat),
      (∀ g ∈ d2.savings_goals, ∃ n t, t < b2 ∧ g.id = goalId n t) →
      (d2.savings_goals.map (fun g => g.id)).Nodup →
      tsLowerBound b2 rest = true →
      (∀ gid ∈ genIds d2 rest, ∃ n t, b2 ≤ t ∧ gid = goalId n t)
      ∧ (genIds d2 rest).Nodup
      ∧ ((runOps d2 rest).savings_goals.map (fun g => g.id)).Nodup
      ∧ (∀ g ∈ (runOps d2 rest).savings_goals,
          g.id ∈ d2.savings_goals.map (fun g2 => g2.id) ∨
            g.id ∈ genIds d2 rest)) :
    (∀ gid ∈ genIds (applyOp d op) rest, ∃ n t, b ≤ t ∧ gid = goalId n t)
    ∧ (genIds (applyOp d op) rest).Nodup
    ∧ ((runOps (applyOp d op) rest).savings_goals.map (fun g => g.id)).Nodup
    ∧ (∀ g ∈ (runOps (applyOp d op) rest).savings_goals,
        g.id ∈ d.savings_goals.map (fun g2 => g2.id) ∨
          g.id ∈ genIds (applyOp d op) rest) := by
  obtain ⟨c1, c2, c3, c4⟩ := ih (applyOp d op) b (by rw [hg]; exact hinv)
    (by rw [hg]; exact hnd) hts
  refine ⟨c1, c2, c3, fun g hgm => ?_⟩
  rcases c4 g hgm with h | h
  · left
    rw [hg] at h
    exact h
  · right
    exact h

/-- Along any run whose goal creations carry strictly increasing
timestamps at least `b`, if every existing goal id was generated with a
timestamp below `b` and the existing ids are distinct, then all ids
generated during the run are fresh (with timestamps at least `b`) and
pairwise distinct, the ids in the final document are pairwise distinct,
and every final id comes from the initial document or the run. -/
theorem runOps_goalIds_aux :
    ∀ (ops : List Op) (d : Doc) (b : Nat),
      (∀ g ∈ d.savings_goals, ∃ n t, t < b ∧ g.id = goalId n t) →
      (d.savings_goals.map (fun g => g.id)).Nodup →
      tsLowerBound b ops = true →
      (∀ gid ∈ genIds d ops, ∃ n t, b ≤ t ∧ gid = goalId n t)
      ∧ (genIds d ops).Nodup
      ∧ ((runOps d ops).savings_goals.map (fun g => g.id)).Nodup
      ∧ (∀ g ∈ (runOps d ops).savings_goals,
          g.id ∈ d.savings_goals.map (fun g2 => g2.id) ∨ g.id ∈ genIds d ops) := by
  intro ops
  induction ops with
  | nil =>
    intro d b _ hnd _
    exact ⟨by simp [genIds], by simp [genIds], hnd,
      fun g hg => Or.inl (List.mem_map_of_mem _ hg)⟩
  | cons op rest ih =>
    intro d b hinv hnd hts
    cases op with
    | rollover today =>
      simp only [tsLowerBound] at hts
      simp only [genIds, runOps, newGoalIds, List.nil_append]
      have hg : (applyOp d (Op.rollover today)).savings_goals =
          d.savings_goals := by
        show (rollover_month_if_needed today d).savings_goals = _
        rw [rollover_month_if_needed]
        split <;> rfl
      exact goal_aux_step rest d _ b hg hinv hnd hts ih
    | setAllowance a =>
      simp only [tsLowerBound] at hts
      simp only [genIds, runOps, newGoalIds, List.nil_append]
      exact goal_aux_step rest d _ b rfl hinv hnd hts ih
    | addTransaction tx =>
      simp only [tsLowerBound] at hts
      simp only [genIds, runOps, newGoalIds, List.nil_append]
      exact goal_aux_step rest d _ b
        (by simp only [applyOp]; split <;> rfl) hinv hnd hts ih
    | deleteTxs selected =>
      simp only [tsLowerBound] at hts
      simp only [genIds, runOps, newGoalIds, List.nil_append]
      exact goal_aux_step rest d _ b rfl hinv hnd hts ih
    | addCategory name =>
      simp only [tsLowerBound] at hts
      simp only [genIds, runOps, newGoalIds, List.nil_append]
      exact goal_aux_step rest d _ b
        (by simp only [applyOp]; split <;> rfl) hinv hnd hts ih
    | removeCats names =>
      simp only [tsLowerBound] at hts
      simp only [genIds, runOps, newGoalIds, List.nil_append]
      exact goal_aux_step rest d _ b rfl hinv hnd hts ih
    | deleteGoal gid =>
      simp only [tsLowerBound] at hts
      simp only [genIds, runOps, newGoalIds, List.nil_append]
      have hsub : List.Sublist
            ((applyOp d (Op.deleteGoal gid)).savings_goals.map (fun g => g.id))
            (d.savings_goals.map (fun g => g.id)) :=
        (List.filter_sublist _).map _
      obtain ⟨c1, c2, c3, c4⟩ := ih (applyOp d (Op.deleteGoal gid)) b
        (fun g hg => hinv g (List.mem_of_mem_filter hg))
        (hnd.sublist hsub) hts
      refine ⟨c1, c2, c3, fun g hgm => ?_⟩
      rcases c4 g hgm with h | h
      · left
        obtain ⟨g2, hg2, he⟩ := List.mem_map.mp h
        exact List.mem_map.mpr ⟨g2, List.mem_of_mem_filter hg2, he⟩
      · right
        exact h
    | createGoal name target targetDate createdDate ts =>
      simp only [tsLowerBound, Bool.and_eq_true, decide_eq_true_eq] at hts
      obtain ⟨hb, hts2⟩ := hts
      cases targetDate with
      | none =>
        simp only [genIds, runOps, newGoalIds, List.nil_append]
        have hg : (applyOp d (Op.createGoal name target none createdDate ts)).savings_goals
            = d.savings_goals := rfl
        obtain ⟨c1, c2, c3, c4⟩ := ih d (ts + 1)
          (fun g hg2 => by
            obtain ⟨n, t, hlt, he⟩ := hinv g hg2
            exact ⟨n, t, by omega, he⟩)
          hnd (by exact hts2)
        refine ⟨fun gid hgid => ?_, c2, c3, c4⟩
        obtain ⟨n, t, hle, he⟩ := c1 gid hgid
        exact ⟨n, t, by omega, he⟩
      | some td =>
        by_cases hguard : pyStrip name = "" ∨ target ≤ 0
        · simp only [genIds, runOps, newGoalIds, applyOp, if_pos hguard,
            List.nil_append]
          obtain ⟨c1, c2, c3, c4⟩ := ih d (ts + 1)
            (fun g hg2 => by
              obtain ⟨n, t, hlt, he⟩ := hinv g hg2
              exact ⟨n, t, by omega, he⟩)
            hnd hts2
          refine ⟨fun gid hgid => ?_, c2, c3, c4⟩
          obtain ⟨n, t, hle, he⟩ := c1 gid hgid
          exact ⟨n, t, by omega, he⟩
        · -- a goal is actually created
          have happ : applyOp d (Op.createGoal name target (some td) createdDate ts) =
              { d with savings_goals := d.savings_goals ++
                  [{ id := goalId d.savings_goals.length ts
                     name := pyStrip name
                     target_amount := target
                     target_date := td
                     created_date := createdDate }] } := by
            simp only [applyOp, if_neg hguard]
          have hnewids : newGoalIds d (Op.createGoal name target (some td) createdDate ts)
              = [goalId d.savings_goals.length ts] := by
            simp only [newGoalIds, if_neg hguard]
          -- the fresh id differs from every id with timestamp below ts + 1
          have hfresh : ∀ gid2, (∃ n t, t < b ∧ gid2 = goalId n t) →
              gid2 ≠ goalId d.savings_goals.length ts := by
            rintro gid2 ⟨n, t, hlt, rfl⟩ he
            have := (goalId_inj n t _ ts he).2
            omega
          have hinv2 : ∀ g ∈ (applyOp d
                (Op.createGoal name target (some td) createdDate ts)).savings_goals,
              ∃ n t, t < ts + 1 ∧ g.id = goalId n t := by
            rw [happ]
            intro g hg
            rcases List.mem_append.mp hg with h1 | h2
            · obtain ⟨n, t, hlt, he⟩ := hinv g h1
              exact ⟨n, t, by omega, he⟩
            · rw [List.mem_singleton] at h2
              rw [h2]
              exact ⟨d.savings_goals.length, ts, by omega, rfl⟩
          have hnd2 : ((applyOp d
                (Op.createGoal name target (some td) createdDate ts)).savings_goals.map
              (fun g => g.id)).Nodup := by
            rw [happ]
            simp only [List.map_append, List.map_cons, List.map_nil]
            rw [List.nodup_append]
            refine ⟨hnd, List.nodup_singleton _, fun gid hgid hgid2 => ?_⟩
            rw [List.mem_singleton] at hgid2
            obtain ⟨g, hgm, he⟩ := List.mem_map.mp hgid
            obtain ⟨n, t, hlt, he2⟩ := hinv g hgm
            exact hfresh gid ⟨n, t, hlt, by rw [← he, he2]⟩ hgid2
          obtain ⟨c1, c2, c3, c4⟩ := ih _ (ts + 1) hinv2 hnd2 hts2
          simp only [genIds, runOps, hnewids, List.singleton_append]
          refine ⟨?_, ?_, c3, ?_⟩
          · intro gid hgid
            rcases List.mem_cons.mp hgid with h1 | h2
            · exact ⟨d.savings_goals.length, ts, hb, h1⟩
            · obtain ⟨n, t, hle, he⟩ := c1 gid h2
              exact ⟨n, t, by omega, he⟩
          · rw [List.nodup_cons]
            refine ⟨fun hmem => ?_, c2⟩
            obtain ⟨n, t, hle, he⟩ := c1 _ hmem
            have := (goalId_inj _ _ n t he).2
            omega
          · intro g hgm
            rcases c4 g hgm with h | h
            · rw [happ] at h
              simp only [List.map_append, List.map_cons, List.map_nil] at h
              rcases List.mem_append.mp h with h1 | h2
              · exact Or.inl h1
              · rw [List.mem_singleton] at h2
                exact Or.inr (by rw [h2]; exact List.mem_cons_self _ _)
            · exact Or.inr (List.mem_cons_of_mem _ h)

theorem padZeros_data (w : Nat) (s : String) :
    (padZeros w s).data = List.replicate (w - s.length) '0' ++ s.data := by
  show ((List.replicate (w - s.length) '0').asString ++ s).data = _
  rw [String.data_append]
  simp [List.asString]

theorem list_len_four (l : List Char) (h : l.length = 4) :
    ∃ a b c d, l = [a, b, c, d] := by
  match l, h with
  | [a, b, c, d], _ => exact ⟨a, b, c, d, rfl⟩

theorem list_len_two (l : List Char) (h : l.length = 2) :
    ∃ a b, l = [a, b] := by
  match l, h with
  | [a, b], _ => exact ⟨a, b, rfl⟩

/-- For a date in years 0–9999, the generated month key has the `YYYY-MM`
shape. -/
theorem get_current_month_key_valid (y m : Nat) (hy : y ≤ 9999) (hm : m ≤ 12) :
    validMonthKey (get_current_month_key y m) = true := by
  have h104 : (10 : Nat) ^ 4 = 10000 := by norm_num
  have h102 : (10 : Nat) ^ 2 = 100 := by norm_num
  have hylen : (Nat.repr y).length ≤ 4 := Nat.repr_length y 4 (by omega) (by omega)
  have hmlen : (Nat.repr m).length ≤ 2 := Nat.repr_length m 2 (by omega) (by omega)
  have hp4len : (List.replicate (4 - (Nat.repr y).length) '0' ++
      (Nat.repr y).data).length = 4 := by
    rw [List.length_append, List.length_replicate]
    have : (Nat.repr y).data.length = (Nat.repr y).length := rfl
    omega
  have hp2len : (List.replicate (2 - (Nat.repr m).length) '0' ++
      (Nat.repr m).data).length = 2 := by
    rw [List.length_append, List.length_replicate]
    have : (Nat.repr m).data.length = (Nat.repr m).length := rfl
    omega
  obtain ⟨a, b, c, dd, he4⟩ := list_len_four _ hp4len
  obtain ⟨e, f, he2⟩ := list_len_two _ hp2len
  have hkey : (get_current_month_key y m).data = [a, b, c, dd, '-', e, f] := by
    show (padZeros 4 (Nat.repr y) ++ "-" ++ padZeros 2 (Nat.repr m)).data = _
    rw [String.data_append, String.data_append, padZeros_data, padZeros_data,
      he4, he2]
    rfl
  have hdig4 : ∀ ch ∈ [a, b, c, dd], ch.isDigit = true := by
    rw [← he4]
    intro ch hch
    rcases List.mem_append.mp hch with h1 | h2
    · rw [List.eq_of_mem_replicate h1]
      decide
    · exact repr_data_isDigit y ch h2
  have hdig2 : ∀ ch ∈ [e, f], ch.isDigit = true := by
    rw [← he2]
    intro ch hch
    rcases List.mem_append.mp hch with h1 | h2
    · rw [List.eq_of_mem_replicate h1]
      decide
    · exact repr_data_isDigit m ch h2
  have ha := hdig4 a (by simp)
  have hb := hdig4 b (by simp)
  have hc := hdig4 c (by simp)
  have hd := hdig4 dd (by simp)
  have he := hdig2 e (by simp)
  have hf := hdig2 f (by simp)
  unfold validMonthKey
  rw [hkey]
  simp [ha, hb, hc, hd, he, hf]

theorem rollover_current_eq (todayMonth : String) (d : Doc) :
    (rollover_month_if_needed todayMonth d).current_month = todayMonth := by
  rw [rollover_month_if_needed]
  split
  · rfl
  · rename_i h
    exact not_not.mp h

theorem rollover_noop (todayMonth : String) (d : Doc)
    (h : d.current_month = todayMonth) :
    rollover_month_if_needed todayMonth d = d := by
  rw [rollover_month_if_needed, if_neg (not_not.mpr h)]

theorem setKey_cons_ne (k1 : String) (v1 : Archived)
    (rest : List (String × Archived)) (k : String) (v : Archived)
    (h : k1 ≠ k) :
    setKey ((k1, v1) :: rest) k v = (k1, v1) :: setKey rest k v := by
  have hb : (k1 == k) = false := by simpa using h
  by_cases hany : rest.any (fun kv => kv.1 == k) = true
  · simp only [setKey, List.any_cons, hb, hany, Bool.false_or, if_true,
      List.map_cons, if_false]
    simp
  · simp only [Bool.not_eq_true] at hany
    simp [setKey, List.any_cons, hb, hany]

theorem lookupArch_setKey (l : List (String × Archived)) (k : String)
    (v : Archived) : lookupArch (setKey l k v) k = some v := by
  induction l with
  | nil => simp [setKey, lookupArch]
  | cons kv rest ih =>
    obtain ⟨k1, v1⟩ := kv
    by_cases he : k1 = k
    · subst he
      simp [setKey, lookupArch]
    · rw [setKey_cons_ne k1 v1 rest k v he]
      simp only [lookupArch, show (k1 == k) = false by simpa using he]
      simpa using ih

/-- C1: after `rollover_month_if_needed` the document's current month key
equals the caller's current calendar month key, and the operation is
idempotent: running it again under the same calendar month key returns
the document unchanged. -/
theorem rollover_sets_month_and_idempotent (todayMonth : String) (d : Doc) :
    (rollover_month_if_needed todayMonth d).current_month = todayMonth
    ∧ rollover_month_if_needed todayMonth (rollover_month_if_needed todayMonth d)
      = rollover_month_if_needed todayMonth d :=
  ⟨rollover_current_eq todayMonth d,
    rollover_noop todayMonth _ (rollover_current_eq todayMonth d)⟩

/-- C2: when the stored month differs from today's, the rollover archives
the old month under its old key — holding the old allowance and
transactions — exactly when the transaction list is non-empty or the
allowance is nonzero; otherwise the archives are left untouched. -/
theorem rollover_archives_iff_meaningful (todayMonth : String) (d : Doc)
    (hne : d.current_month ≠ todayMonth) :
    ((d.transactions ≠ [] ∨ d.monthly_allowance ≠ 0) →
      lookupArch (rollover_month_if_needed todayMonth d).archives
        d.current_month = some ⟨d.monthly_allowance, d.transactions⟩)
    ∧ ((d.transactions = [] ∧ d.monthly_allowance = 0) →
      (rollover_month_if_needed todayMonth d).archives = d.archives) := by
  constructor
  · intro hmean
    rw [rollover_month_if_needed, if_pos hne]
    show lookupArch
      (if d.transactions ≠ [] ∨ d.monthly_allowance ≠ 0 then
        setKey d.archives d.current_month
          ⟨d.monthly_allowance, d.transactions⟩
      else d.archives) d.current_month = _
    rw [if_pos hmean]
    exact lookupArch_setKey d.archives d.current_month _
  · intro hempty
    rw [rollover_month_if_needed, if_pos hne]
    show (if d.transactions ≠ [] ∨ d.monthly_allowance ≠ 0 then
        setKey d.archives d.current_month
          ⟨d.monthly_allowance, d.transactions⟩
      else d.archives) = d.archives
    rw [if_neg (by simp [hempty.1, hempty.2])]

theorem rollover_archives_iff_meaningful_witness :
    lookupArch (rollover_month_if_needed "2025-02"
        { current_month := "2025-01", monthly_allowance := 100,
          categories := [], transactions := [], archives := [],
          savings_goals := [] } : Doc).archives "2025-01"
      = some ⟨100, []⟩ :=
  (rollover_archives_iff_meaningful "2025-02" _ (by decide)).1
    (Or.inr (by norm_num))

/-- C3: `delete_transactions` keeps exactly the stored transactions that
structurally match no selected one: the result is an in-order sublist of
the input, contains no transaction matching any selected one (so all
duplicates of a selected transaction go together), preserves the
multiplicity of every non-matching transaction, and the reported deleted
count is the number of matching transactions. -/
theorem delete_transactions_spec (txs selected : List Transaction) :
    List.Sublist (delete_transactions txs selected).1 txs
    ∧ (∀ tx ∈ (delete_transactions txs selected).1, ∀ s ∈ selected,
        transactions_match tx s = false)
    ∧ (∀ tx : Transaction, (∀ s ∈ selected, transactions_match tx s = false) →
        (delete_transactions txs selected).1.count tx = txs.count tx)
    ∧ (delete_transactions txs selected).2 =
        (txs.filter (fun tx => selected.any
          (fun s => transactions_match tx s))).length := by
  refine ⟨List.filter_sublist txs, ?_, ?_, ?_⟩
  · intro tx htx s hs
    have hmem := List.mem_filter.mp htx
    have hany : (selected.any (fun s2 => transactions_match tx s2)) = false := by
      have := hmem.2
      simpa using this
    rw [List.any_eq_false] at hany
    have := hany s hs
    simpa using this
  · intro tx hno
    have hp : (fun t => !(selected.any (fun s => transactions_match t s))) tx
        = true := by
      simp only [Bool.not_eq_true']
      rw [List.any_eq_false]
      intro s hs
      simp [hno s hs]
    exact List.count_filter hp
  · have hlen := List.length_eq_length_filter_add (l := txs)
      (fun tx => selected.any (fun s => transactions_match tx s))
    have hrem : (delete_transactions txs selected).1.length =
        (txs.filter (fun tx =>
          !(selected.any (fun s => transactions_match tx s)))).length := rfl
    show txs.length - (delete_transactions txs selected).1.length = _
    rw [hrem]
    omega

theorem delete_transactions_spec_witness :
    (delete_transactions
        [⟨"2025-01-01", "Food", "Expenditure", "Cash", 10⟩,
         ⟨"2025-01-02", "Transport", "Expenditure", "Cash", 20⟩,
         ⟨"2025-01-01", "Food", "Expenditure", "Cash", 10⟩]
        [⟨"2025-01-01", "Food", "Expenditure", "Cash", 10⟩]).1.count
        ⟨"2025-01-02", "Transport", "Expenditure", "Cash", 20⟩
      = ([⟨"2025-01-01", "Food", "Expenditure", "Cash", 10⟩,
          ⟨"2025-01-02", "Transport", "Expenditure", "Cash", 20⟩,
          ⟨"2025-01-01", "Food", "Expenditure", "Cash", 10⟩] :
            List Transaction).count
          ⟨"2025-01-02", "Transport", "Expenditure", "Cash", 20⟩ :=
  (delete_transactions_spec _ _).2.2.1 _ (by
    intro s hs
    rw [List.mem_singleton] at hs
    subst hs
    norm_num [transactions_match])

/-- C4: `compute_basic_metrics` returns the sum of amounts of transactions
whose kind is exactly `"Income"` as total income, likewise for
`"Expenditure"`, the net of allowance plus income minus expenses (which
may be negative), the net clamped at zero as remaining budget, and on the
empty list with allowance `a` the record `(0, 0, a, max a 0)`. -/
theorem compute_basic_metrics_spec (txs : List Transaction) (a : ℚ) :
    (compute_basic_metrics txs a).total_income =
      (txs.map (fun t =>
        if t.income_or_expenditure = "Income" then t.amount else 0)).sum
    ∧ (compute_basic_metrics txs a).total_expense =
      (txs.map (fun t =>
        if t.income_or_expenditure = "Expenditure" then t.amount else 0)).sum
    ∧ (compute_basic_metrics txs a).net_available =
      a + (compute_basic_metrics txs a).total_income -
        (compute_basic_metrics txs a).total_expense
    ∧ (compute_basic_metrics txs a).remaining_budget =
      max (compute_basic_metrics txs a).net_available 0
    ∧ compute_basic_metrics [] a =
      { total_income := 0, total_expense := 0, net_available := a,
        remaining_budget := max a 0 } := by
  simp only [compute_basic_metrics_eq]
  simp

/-- C5: `compute_insight_metrics` returns the remaining days as the month
length minus the days passed clamped at zero, the average daily spending
as total expense over days passed (zero when no day has passed), the safe
daily spend as remaining budget over remaining days (zero when no day
remains); on day 10 of a 30-day month with total expense 500 and
remaining budget 4000 it yields average 50, 20 remaining days and safe
spend 200. -/
theorem compute_insight_metrics_spec (metrics : Metrics)
    (days_in_month days_passed : Nat) :
    (compute_insight_metrics metrics days_in_month days_passed).remaining_days
      = max ((days_in_month : ℤ) - (days_passed : ℤ)) 0
    ∧ (days_passed = 0 →
      (compute_insight_metrics metrics days_in_month days_passed).avg_daily_spent
        = 0)
    ∧ (days_passed ≠ 0 →
      (compute_insight_metrics metrics days_in_month days_passed).avg_daily_spent
        = metrics.total_expense / (days_passed : ℚ))
    ∧ ((compute_insight_metrics metrics days_in_month days_passed).remaining_days
        = 0 →
      (compute_insight_metrics metrics days_in_month days_passed).safe_daily_spend
        = 0)
    ∧ ((compute_insight_metrics metrics days_in_month days_passed).remaining_days
        ≠ 0 →
      (compute_insight_metrics metrics days_in_month days_passed).safe_daily_spend
        = metrics.remaining_budget /
          (((compute_insight_metrics metrics days_in_month
            days_passed).remaining_days : ℤ) : ℚ))
    ∧ compute_insight_metrics
        { total_income := 0, total_expense := 500, net_available := 4000,
          remaining_budget := 4000 } 30 10 =
      { avg_daily_spent := 50, remaining_days := 20, safe_daily_spend := 200 } := by
  refine ⟨rfl, ?_, ?_, ?_, ?_, ?_⟩
  · intro h
    simp [compute_insight_metrics, h]
  · intro h
    simp [compute_insight_metrics, Nat.pos_of_ne_zero h]
  · intro h
    simp only [compute_insight_metrics] at h ⊢
    rw [if_neg (by omega)]
  · intro h
    simp only [compute_insight_metrics] at h ⊢
    rw [if_pos (by omega)]
  · show Insight.mk _ _ _ = _
    norm_num

/-- C5 witness: the theorem applied on day 10 of a 30-day month. -/
theorem compute_insight_metrics_spec_witness :
    (compute_insight_metrics
      { total_income := 0, total_expense := 500, net_available := 4000,
        remaining_budget := 4000 } 30 10).avg_daily_spent = 500 / (10 : ℚ) :=
  (compute_insight_metrics_spec
    { total_income := 0, total_expense := 500, net_available := 4000,
      remaining_budget := 4000 } 30 10).2.2.1 (by decide)

/-- C7: loading a persisted state that exists but fails to parse returns —
without any error — the minimal fallback document: today's (valid) month
key, zero allowance, and empty categories, transactions, archives and
goals; loading with no persisted state returns the first-run default whose
category list is the fixed nine-entry starter set. -/
theorem load_data_fallbacks (y m : Nat) (hy : y ≤ 9999) (hm1 : 1 ≤ m)
    (hm2 : m ≤ 12) :
    load_data (get_current_month_key y m) PersistedState.corrupt =
      { current_month := get_current_month_key y m, monthly_allowance := 0,
        categories := [], transactions := [], archives := [],
        savings_goals := [] }
    ∧ validMonthKey (load_data (get_current_month_key y m)
        PersistedState.corrupt).current_month = true
    ∧ load_data (get_current_month_key y m) PersistedState.missing =
      { current_month := get_current_month_key y m, monthly_allowance := 0,
        categories := starterCategories, transactions := [], archives := [],
        savings_goals := [] }
    ∧ starterCategories.length = 9 := by
  have := hm1
  exact ⟨rfl, get_current_month_key_valid y m hy hm2, rfl, rfl⟩

theorem load_data_fallbacks_witness :
    validMonthKey (load_data (get_current_month_key 2025 10)
      PersistedState.corrupt).current_month = true :=
  (load_data_fallbacks 2025 10 (by decide) (by decide) (by decide)).2.1

/-- C9: removing categories only filters the listed names out of the
category list; the transaction list is returned unchanged — same length,
same elements, same order — even when a transaction references a removed
category. -/
theorem remove_categories_frame (d : Doc) (cats_to_delete : List String) :
    (remove_categories d cats_to_delete).transactions = d.transactions
    ∧ (remove_categories d cats_to_delete).transactions.length =
        d.transactions.length
    ∧ ∀ c, c ∈ (remove_categories d cats_to_delete).categories ↔
        (c ∈ d.categories ∧ c ∉ cats_to_delete) := by
  refine ⟨rfl, rfl, fun c => ?_⟩
  simp [remove_categories, List.mem_filter]

/-- C10: a transaction whose kind is neither exactly `"Income"` nor
exactly `"Expenditure"` (possible in an uploaded CSV) contributes to
neither total: dropping it from anywhere in the list leaves all four basic
metrics unchanged. -/
theorem unknown_kind_ignored (a : ℚ) (pre post : List Transaction)
    (tx : Transaction) (h1 : tx.income_or_expenditure ≠ "Income")
    (h2 : tx.income_or_expenditure ≠ "Expenditure") :
    compute_basic_metrics (pre ++ tx :: post) a =
      compute_basic_metrics (pre ++ post) a := by
  simp only [compute_basic_metrics_eq]
  simp [h1, h2]

theorem unknown_kind_ignored_witness :
    compute_basic_metrics
        [⟨"2025-01-05", "Food", "Transfer", "Cash", 7⟩] 100 =
      compute_basic_metrics [] 100 :=
  unknown_kind_ignored 100 [] [] ⟨"2025-01-05", "Food", "Transfer", "Cash", 7⟩
    (by decide) (by decide)

/-- C6 fails on the code: with the calendar moving to February and back to
January, the reopened January key is present in the archives, and a later
rollover rewrites the already-written January entry with different
contents. -/
theorem archives_invariant_counterexample :
    (runOps exampleStart backAndForthOps).current_month = "2025-01"
    ∧ lookupArch (runOps exampleStart backAndForthOps).archives "2025-01"
        = some ⟨100, []⟩
    ∧ lookupArch (runOps exampleStart backAndForthOps2).archives "2025-01"
        = some ⟨100, [exampleTx]⟩
    ∧ some (Archived.mk 100 []) ≠ some (Archived.mk 100 [exampleTx]) := by
  refine ⟨?_, ?_, ?_, ?_⟩ <;> decide

/-- C6 (amended): provided every rollover's calendar month key is at least
the document's current month key (the clock never moves back across a
month boundary), then — starting from any document whose archive keys all
precede its open month key — the open `current_month` never appears as an
archive key, and an archive entry, once written, is never changed. -/
theorem archives_invariant_mono (d : Doc) (ops : List Op)
    (hinv : ∀ kv ∈ d.archives, keyLt kv.1 d.current_month = true)
    (hmono : monoRollovers d ops = true) :
    (∀ kv ∈ (runOps d ops).archives, kv.1 ≠ (runOps d ops).current_month)
    ∧ (∀ k v, lookupArch d.archives k = some v →
        lookupArch (runOps d ops).archives k = some v) := by
  obtain ⟨c1, c2⟩ := runOps_arch_aux ops d hinv hmono
  exact ⟨fun kv hkv => keyLt_ne _ _ (c1 kv hkv), c2⟩

theorem archives_invariant_mono_witness :
    lookupArch (runOps exampleArchDoc [Op.rollover "2025-03"]).archives
      "2025-01" = some ⟨50, []⟩ :=
  (archives_invariant_mono exampleArchDoc [Op.rollover "2025-03"]
    (by decide) (by decide)).2 "2025-01" ⟨50, []⟩ (by decide)

/-- C8 fails on the code: two goal creations in the same clock second with
a deletion in between reuse an already-generated id, and can leave two
goals with the same id in the document. -/
theorem goal_id_unique_counterexample :
    genIds exampleStart goalOpsReuse = ["1-50", "1-50"]
    ∧ ¬ (genIds exampleStart goalOpsReuse).Nodup
    ∧ (runOps exampleStart goalOpsCollide).savings_goals.map (fun g => g.id)
        = ["2-50", "2-50"]
    ∧ ¬ ((runOps exampleStart goalOpsCollide).savings_goals.map
        (fun g => g.id)).Nodup := by
  refine ⟨?_, ?_, ?_, ?_⟩ <;> decide

/-- C8 (amended): provided goal creations happen at strictly increasing
whole-second timestamps (never two creations in the same second), every
generated id is fresh: starting from a document with no goals, the ids
generated along any sequence of operations are pairwise distinct (none is
ever reused), the goals in the final document carry pairwise distinct
ids, and every id in the final document is one of the generated ids. -/
theorem goal_ids_unique_mono (d : Doc) (ops : List Op) (b : Nat)
    (hempty : d.savings_goals = [])
    (hts : tsLowerBound b ops = true) :
    (genIds d ops).Nodup
    ∧ ((runOps d ops).savings_goals.map (fun g => g.id)).Nodup
    ∧ (∀ g ∈ (runOps d ops).savings_goals, g.id ∈ genIds d ops) := by
  obtain ⟨c1, c2, c3, c4⟩ := runOps_goalIds_aux ops d b
    (by rw [hempty]; intro g hg; exact absurd hg (List.not_mem_nil g))
    (by rw [hempty]; exact List.nodup_nil) hts
  refine ⟨c2, c3, fun g hg => ?_⟩
  rcases c4 g hg with h | h
  · rw [hempty] at h
    simp at h
  · exact h

theorem goal_ids_unique_mono_witness :
    (genIds exampleStart goalOpsFresh).Nodup :=
  (goal_ids_unique_mono exampleStart goalOpsFresh 0 rfl (by decide)).1
